import Mathlib

/-!
# Polling worker and logger of the filesystem watcher

A shallow embedding of `src/polling/polling_thread.cpp`, `src/log.cpp` and the
parts of `src/message.h` they use, followed by the properties proved about them.

* Machine integers are natural numbers; `size_t` arithmetic that can wrap is
  written out modulo `SIZE_MOD`.
* The members of `PollingThread` live in `PollingThread`; the state of the base
  class `Thread` is a type parameter `β`, the traversal state of a `PolledRoot`
  is a type parameter `σ`, and the functions of those two classes (absent from
  the sources at hand) are the fields of `Externals`.
* `roots` is a `std::map`: an association list kept in ascending key order.
-/

namespace Watcher

/-! ## message.h -/

/-- The type `ChannelID` of message.h (`uint_fast32_t`). -/
abbrev ChannelID := Nat

/-- The type `CommandID` of message.h (`uint_fast32_t`). -/
abbrev CommandID := Nat

def NULL_CHANNEL_ID : ChannelID := 0

def NULL_COMMAND_ID : CommandID := 0

inductive EntryKind where
  | KIND_FILE
  | KIND_DIRECTORY
  | KIND_UNKNOWN
deriving DecidableEq, Repr

inductive FileSystemAction where
  | ACTION_CREATED
  | ACTION_DELETED
  | ACTION_MODIFIED
  | ACTION_RENAMED
deriving DecidableEq, Repr

structure FileSystemPayload where
  channel_id : ChannelID
  action : FileSystemAction
  entry_kind : EntryKind
  old_path : String
  path : String
deriving DecidableEq, Repr

inductive CommandAction where
  | COMMAND_ADD
  | COMMAND_REMOVE
  | COMMAND_LOG_FILE
  | COMMAND_LOG_STDERR
  | COMMAND_LOG_STDOUT
  | COMMAND_LOG_DISABLE
  | COMMAND_POLLING_INTERVAL
  | COMMAND_POLLING_THROTTLE
  | COMMAND_DRAIN
deriving DecidableEq, Repr

structure CommandPayload where
  id : CommandID
  action : CommandAction
  root : String
  arg : Nat
  split_count : Nat
deriving DecidableEq, Repr

def CommandPayload.get_id (c : CommandPayload) : CommandID := c.id

def CommandPayload.get_action (c : CommandPayload) : CommandAction := c.action

def CommandPayload.get_root (c : CommandPayload) : String := c.root

def CommandPayload.get_arg (c : CommandPayload) : Nat := c.arg

/-- The channel id of a command is its `arg` field (message.h, `get_channel_id`). -/
def CommandPayload.get_channel_id (c : CommandPayload) : ChannelID := c.arg

structure AckPayload where
  key : CommandID
  channel_id : ChannelID
  success : Bool
  message : String
deriving DecidableEq, Repr

inductive Message where
  | filesystem (payload : FileSystemPayload)
  | command (payload : CommandPayload)
  | ack (payload : AckPayload)
deriving DecidableEq, Repr

/-- Modelled from the spec: `MessageBuffer` of message_buffer.h, which is not among
the sources; the batch of messages a poll cycle collects before emitting them. -/
abbrev MessageBuffer := List Message

/-! ## result.h and the outcomes declared by thread.h -/

/-- Modelled from the spec: `Result<T>` of result.h, which is not among the
sources; it "carries either a value or an error chain". -/
inductive Result (α : Type) where
  | ok (value : α)
  | error (message : String)
deriving DecidableEq, Repr

def Result.is_error {α : Type} : Result α → Bool
  | Result.ok _ => false
  | Result.error _ => true

def ok_result {α : Type} (value : α) : Result α := Result.ok value

/-- Modelled from the spec: the enumeration `Thread::CommandOutcome` of thread.h,
which is not among the sources: Nothing, Ack, TriggerRun, TriggerStop. -/
inductive CommandOutcome where
  | NOTHING
  | ACK
  | TRIGGER_RUN
  | TRIGGER_STOP
deriving DecidableEq, Repr

/-- Modelled from the spec: the enumeration `Thread::OfflineCommandOutcome` of
thread.h, which is not among the sources: OfflineAck, TriggerRun, TriggerStop. -/
inductive OfflineCommandOutcome where
  | OFFLINE_ACK
  | TRIGGER_RUN
  | TRIGGER_STOP
deriving DecidableEq, Repr

/-! ## PolledRoot and the roots map -/

/-- Modelled from the spec: `PolledRoot` of polled_root.h, which is not among the
sources. It keeps the three constructor arguments used by `handle_add_command`
(root path, originating command id, channel id); its snapshot and traversal
cursor are the abstract component `state`. -/
structure PolledRoot (σ : Type) where
  root : String
  command_id : CommandID
  channel_id : ChannelID
  state : σ
deriving DecidableEq, Repr

/-- The member `roots`. polling_thread.cpp includes `<map>` and uses the
`std::map` interface on it (`emplace` with `piecewise_construct`, `find`,
`erase` of an iterator, `begin`/`end`, `size`, `empty`): the entries are held in
ascending order of their keys, one entry per key. -/
abbrev RootMap (σ : Type) := List (ChannelID × PolledRoot σ)

/-- The class invariant of `std::map`: keys strictly ascending. -/
def RootMap.WF {σ : Type} (m : RootMap σ) : Prop :=
  m.Pairwise (fun a b => a.1 < b.1)

/-- The keys in iteration order (`begin()` to `end()`). -/
def RootMap.keys {σ : Type} (m : RootMap σ) : List ChannelID := m.map Prod.fst

/-- Lookup as done by `std::map::find`: the entry of key `c`, if there is one. -/
def RootMap.find {σ : Type} : RootMap σ → ChannelID → Option (PolledRoot σ)
  | [], _ => none
  | (k, v) :: rest, c => if k = c then some v else RootMap.find rest c

/-- Insertion as done by `std::map::emplace`: the new entry goes to its place in
key order, and nothing is inserted when the key is already present. -/
def RootMap.emplace {σ : Type} : RootMap σ → ChannelID → PolledRoot σ → RootMap σ
  | [], c, r => [(c, r)]
  | (k, v) :: rest, c, r =>
    if c < k then (c, r) :: (k, v) :: rest
    else if c = k then (k, v) :: rest
    else (k, v) :: RootMap.emplace rest c r

/-- Removal as done by `roots.erase(it)` for `it = roots.find(c)`: the entry that
`find` locates is removed, the others stay in place. -/
def RootMap.erase {σ : Type} : RootMap σ → ChannelID → RootMap σ
  | [], _ => []
  | (k, v) :: rest, c => if k = c then rest else (k, v) :: RootMap.erase rest c

/-! ## PollingThread -/

/-- The data members of `PollingThread`, and the state `base` of its base class
`Thread` (stopping flag, health, queues), which is not among the sources. -/
structure PollingThread (σ β : Type) where
  roots : RootMap σ
  poll_interval : Nat
  poll_throttle : Nat
  base : β

/-- The functions `PollingThread` calls that are not among the sources:
the constructor and `advance` of `PolledRoot`, and the members of the base
class `Thread`. -/
structure Externals (σ β : Type) where
  /-- The traversal state a freshly constructed `PolledRoot` starts from. -/
  initial_state : String → CommandID → ChannelID → σ
  /-- The call `root.advance(buffer, allotment)`: the root and the buffer after the
  call, and the number of slots consumed. -/
  advance : PolledRoot σ → MessageBuffer → Nat → PolledRoot σ × MessageBuffer × Nat
  /-- The call `emit_all(begin, end)` of the base class. -/
  emit_all : β → MessageBuffer → β × Result Unit
  /-- The call `handle_commands()` of the base class, which dispatches to the
  command hooks and so may change every member. -/
  handle_commands : PollingThread σ β → PollingThread σ β × Result Nat
  is_stopping : β → Bool
  is_healthy : β → Bool
  /-- The call `Thread::handle_offline_command(command)` of the base class. -/
  thread_handle_offline_command : β → CommandPayload → β × Result OfflineCommandOutcome

/-- The constructor call `PolledRoot(root, id, channel_id)`. -/
def PolledRoot.construct {σ β : Type} (ext : Externals σ β) (root : String) (id : CommandID)
    (channel_id : ChannelID) : PolledRoot σ :=
  { root := root, command_id := id, channel_id := channel_id,
    state := ext.initial_state root id channel_id }

/-- One more than the largest `size_t`. -/
def SIZE_MOD : Nat := 2 ^ 64

/-- The subtraction `a -= b` on `size_t`: it wraps modulo `SIZE_MOD`. -/
def size_sub (a b : Nat) : Nat := (a + (SIZE_MOD - b % SIZE_MOD)) % SIZE_MOD

/-- What the log lines of one loop iteration of `cycle` report, together with the
values of the two counters when the iteration starts. -/
structure Visit where
  channel : ChannelID
  roots_left : Nat
  remaining : Nat
  allotment : Nat
  progress : Nat
deriving DecidableEq, Repr

/-- The `while (it != roots.end())` loop of `PollingThread::cycle`, from the
iterator position onwards. The division `remaining / roots_left` is undefined
for a zero divisor: the result is then `none`. The decrement `roots_left--`
comes after that division, so it is taken from a positive value and is exact. -/
def cycle_loop {σ : Type} (advance : PolledRoot σ → MessageBuffer → Nat → PolledRoot σ × MessageBuffer × Nat) :
    RootMap σ → MessageBuffer → Nat → Nat → Option (RootMap σ × MessageBuffer × List Visit)
  | [], buffer, _, _ => some ([], buffer, [])
  | (c, root) :: rest, buffer, remaining, roots_left =>
    if roots_left = 0 then none
    else
      let allotment := remaining / roots_left
      let advanced := advance root buffer allotment
      let progress := advanced.2.2
      match cycle_loop advance rest advanced.2.1 (size_sub remaining progress) (roots_left - 1) with
      | none => none
      | some later =>
        some ((c, advanced.1) :: later.1, later.2.1,
          { channel := c, roots_left := roots_left, remaining := remaining,
            allotment := allotment, progress := progress } :: later.2.2)

/-- The result of `PollingThread::cycle`: the thread afterwards, the result of
`emit_all`, and the visits made, in order. -/
structure CycleOutcome (σ β : Type) where
  thread : PollingThread σ β
  result : Result Unit
  visits : List Visit

/-- The function `PollingThread::cycle`. -/
def cycle {σ β : Type} (ext : Externals σ β) (pt : PollingThread σ β) : Option (CycleOutcome σ β) :=
  let buffer : MessageBuffer := []
  let remaining := pt.poll_throttle % SIZE_MOD
  let roots_left := pt.roots.length
  match cycle_loop ext.advance pt.roots buffer remaining roots_left with
  | none => none
  | some looped =>
    let emitted := ext.emit_all pt.base looped.2.1
    some { thread := { pt with roots := looped.1, base := emitted.1 }, result := emitted.2,
           visits := looped.2.2 }

/-- The function `PollingThread::handle_add_command`. -/
def handle_add_command {σ β : Type} (ext : Externals σ β) (pt : PollingThread σ β)
    (command : CommandPayload) : PollingThread σ β × Result CommandOutcome :=
  let root := PolledRoot.construct ext command.get_root command.get_id command.get_channel_id
  ({ pt with roots := pt.roots.emplace command.get_channel_id root },
    ok_result CommandOutcome.NOTHING)

/-- The function `PollingThread::handle_remove_command`. -/
def handle_remove_command {σ β : Type} (pt : PollingThread σ β) (command : CommandPayload) :
    PollingThread σ β × Result CommandOutcome :=
  let roots1 :=
    match pt.roots.find command.get_channel_id with
    | some _ => pt.roots.erase command.get_channel_id
    | none => pt.roots
  if roots1.isEmpty then ({ pt with roots := roots1 }, ok_result CommandOutcome.TRIGGER_STOP)
  else ({ pt with roots := roots1 }, ok_result CommandOutcome.ACK)

/-- The function `PollingThread::handle_polling_interval_command`. -/
def handle_polling_interval_command {σ β : Type} (pt : PollingThread σ β)
    (command : CommandPayload) : PollingThread σ β × Result CommandOutcome :=
  ({ pt with poll_interval := command.get_arg }, ok_result CommandOutcome.ACK)

/-- The function `PollingThread::handle_polling_throttle_command`. -/
def handle_polling_throttle_command {σ β : Type} (pt : PollingThread σ β)
    (command : CommandPayload) : PollingThread σ β × Result CommandOutcome :=
  ({ pt with poll_throttle := command.get_arg }, ok_result CommandOutcome.ACK)

/-- The function `PollingThread::handle_offline_command`. -/
def handle_offline_command {σ β : Type} (ext : Externals σ β) (pt : PollingThread σ β)
    (command : CommandPayload) : PollingThread σ β × Result OfflineCommandOutcome :=
  match ext.thread_handle_offline_command pt.base command with
  | (base1, r) =>
    let pt1 : PollingThread σ β := { pt with base := base1 }
    if r.is_error then (pt1, r)
    else if command.get_action = CommandAction.COMMAND_ADD then
      (pt1, ok_result OfflineCommandOutcome.TRIGGER_RUN)
    else
      let pt2 :=
        if command.get_action = CommandAction.COMMAND_POLLING_INTERVAL then
          (handle_polling_interval_command pt1 command).1
        else pt1
      let pt3 :=
        if command.get_action = CommandAction.COMMAND_POLLING_THROTTLE then
          (handle_polling_throttle_command pt2 command).1
        else pt2
      (pt3, ok_result OfflineCommandOutcome.OFFLINE_ACK)

/-- The Add and Remove commands of a sequence handled in turn by the two hooks
`handle_add_command` and `handle_remove_command`; commands of another action do
not reach either hook. -/
def handle_add_remove {σ β : Type} (ext : Externals σ β) :
    PollingThread σ β → List CommandPayload → PollingThread σ β
  | pt, [] => pt
  | pt, command :: rest =>
    match command.get_action with
    | CommandAction.COMMAND_ADD => handle_add_remove ext (handle_add_command ext pt command).1 rest
    | CommandAction.COMMAND_REMOVE => handle_add_remove ext (handle_remove_command pt command).1 rest
    | _ => handle_add_remove ext pt rest

/-- What one iteration of the loop of `PollingThread::body` does, in order. -/
inductive BodyEvent where
  | handle_commands
  | cycle
  | sleep_for (ms : Nat)
deriving DecidableEq, Repr

/-- How one iteration of the loop of `PollingThread::body` ends: `body` returns,
or the loop goes round again, or the iteration had no defined behaviour. -/
inductive Step (σ β : Type) where
  | returned (pt : PollingThread σ β) (result : Result Unit) (events : List BodyEvent)
  | again (pt : PollingThread σ β) (events : List BodyEvent)
  | undefined

/-- The part of the loop of `PollingThread::body` after the `if`: the poll cycle,
whose result is dropped, and the sleep of a healthy thread. -/
def body_poll {σ β : Type} (ext : Externals σ β) (pt : PollingThread σ β) : Step σ β :=
  match cycle ext pt with
  | none => Step.undefined
  | some out =>
    if ext.is_healthy out.thread.base then
      Step.again out.thread
        [BodyEvent.handle_commands, BodyEvent.cycle, BodyEvent.sleep_for out.thread.poll_interval]
    else Step.again out.thread [BodyEvent.handle_commands, BodyEvent.cycle]

/-- One iteration of the `while (true)` loop of `PollingThread::body`. -/
def body_iteration {σ β : Type} (ext : Externals σ β) (pt : PollingThread σ β) : Step σ β :=
  match ext.handle_commands pt with
  | (pt1, cr) =>
    if cr.is_error then body_poll ext pt1
    else if ext.is_stopping pt1.base then
      Step.returned pt1 (ok_result ()) [BodyEvent.handle_commands]
    else body_poll ext pt1

/-- The function `PollingThread::body`, run for at most `fuel` iterations of its
loop: `none` when it has not returned by then. -/
def body {σ β : Type} (ext : Externals σ β) :
    Nat → PollingThread σ β → Option (PollingThread σ β × Result Unit × List BodyEvent)
  | 0, _ => none
  | fuel + 1, pt =>
    match body_iteration ext pt with
    | Step.returned pt1 r events => some (pt1, r, events)
    | Step.again pt1 events =>
      match body ext fuel pt1 with
      | none => none
      | some (pt2, r, later) => some (pt2, r, events ++ later)
    | Step.undefined => none

/-! ## log.cpp -/

/-- The values a `Logger*` takes: `nullptr`, the address of the static
`the_null_logger`, or a `FileLogger` made by `new`, named by its rank of creation. -/
inductive LoggerPtr where
  | null
  | the_null_logger
  | file (id : Nat)
deriving DecidableEq, Repr

/-- The logger state of one thread: the value under `current_logger_key`
(`slot`), the file names of the `FileLogger` objects created so far, in order
of creation, and the operands of the `delete` expressions executed so far
(`delete nullptr` does nothing and is not recorded). -/
structure LoggerState where
  slot : LoggerPtr
  created : List String
  deleted : List LoggerPtr
deriving DecidableEq, Repr

/-- A thread on which no logger was set: `uv_key_get` yields `nullptr`. -/
def LoggerState.fresh : LoggerState := { slot := LoggerPtr.null, created := [], deleted := [] }

/-- The function `Logger::current`: the state afterwards and the pointer returned,
which is the local `logger` read before the `if`. -/
def Logger.current (s : LoggerState) : LoggerState × LoggerPtr :=
  let logger := s.slot
  if logger = LoggerPtr.null then ({ s with slot := LoggerPtr.the_null_logger }, logger)
  else (s, logger)

/-- The expression `delete p`. -/
def delete_logger (s : LoggerState) (p : LoggerPtr) : LoggerState :=
  match p with
  | LoggerPtr.null => s
  | q => { s with deleted := s.deleted ++ [q] }

/-- The function `replace_logger`. -/
def replace_logger (s : LoggerState) (new_logger : LoggerPtr) : LoggerState :=
  match Logger.current s with
  | (s1, prior) =>
    let s2 := if prior ≠ LoggerPtr.the_null_logger then delete_logger s1 prior else s1
    { s2 with slot := new_logger }

/-- The function `Logger::to_file`: the `FileLogger` is created first, then
handed to `replace_logger`. -/
def Logger.to_file (s : LoggerState) (filename : String) : LoggerState :=
  let new_logger := LoggerPtr.file s.created.length
  replace_logger { s with created := s.created ++ [filename] } new_logger

/-- The function `Logger::disable`. -/
def Logger.disable (s : LoggerState) : LoggerState :=
  replace_logger s LoggerPtr.the_null_logger

/-- A call of one of the two replacing functions. -/
inductive LoggerCall where
  | to_file (filename : String)
  | disable
deriving DecidableEq, Repr

def LoggerCall.apply (s : LoggerState) : LoggerCall → LoggerState
  | LoggerCall.to_file filename => Logger.to_file s filename
  | LoggerCall.disable => Logger.disable s

/-- The logger a call installs: the file logger it creates, or the sentinel. -/
def LoggerCall.installs (s : LoggerState) : LoggerCall → LoggerPtr
  | LoggerCall.to_file _ => LoggerPtr.file s.created.length
  | LoggerCall.disable => LoggerPtr.the_null_logger

/-- A sequence of calls made one after the other on the same thread. -/
def run_logger_calls (s : LoggerState) (calls : List LoggerCall) : LoggerState :=
  calls.foldl LoggerCall.apply s

/-! ## Instances used in the examples -/

/-- A polled root whose traversal state is the number of entries still to scan:
`advance` scans as many of them as the allotment allows, one slot each. -/
def counting_advance (root : PolledRoot Nat) (buffer : MessageBuffer) (allotment : Nat) :
    PolledRoot Nat × MessageBuffer × Nat :=
  ({ root with state := root.state - min root.state allotment }, buffer, min root.state allotment)

/-- A base thread state made of the stopping flag and the health flag. -/
structure Flags where
  stopping : Bool
  healthy : Bool
deriving DecidableEq, Repr

/-- Externals over `counting_advance` and `Flags`; `entries` gives the number of
entries under a root path, `commands` is the behaviour of `handle_commands`. -/
def counting_externals (entries : String → Nat)
    (commands : PollingThread Nat Flags → PollingThread Nat Flags × Result Nat) :
    Externals Nat Flags :=
  { initial_state := fun root _ _ => entries root
    advance := counting_advance
    emit_all := fun b _ => (b, Result.ok ())
    handle_commands := commands
    is_stopping := fun b => b.stopping
    is_healthy := fun b => b.healthy
    thread_handle_offline_command := fun b _ => (b, Result.ok OfflineCommandOutcome.OFFLINE_ACK) }

/-- The constructor `PollingThread::PollingThread`: no roots, and the two
defaults, whose values are constants of polling_thread.h (not among the
sources) and are taken as arguments. -/
def PollingThread.create {σ β : Type} (DEFAULT_POLL_INTERVAL DEFAULT_POLL_THROTTLE : Nat)
    (base : β) : PollingThread σ β :=
  { roots := [], poll_interval := DEFAULT_POLL_INTERVAL, poll_throttle := DEFAULT_POLL_THROTTLE,
    base := base }

/-- Two roots for the examples: A holds 2 entries, every other path holds 10;
`handle_commands` changes nothing and succeeds. -/
def two_roots_externals : Externals Nat Flags :=
  counting_externals (fun path => if path = "A" then 2 else 10) (fun pt => (pt, Result.ok 0))

/-- A thread polling A on channel 1 and B on channel 2 with 7 slots a cycle. -/
def two_roots_thread : PollingThread Nat Flags :=
  { roots := [(1, { root := "A", command_id := 10, channel_id := 1, state := 2 }),
              (2, { root := "B", command_id := 11, channel_id := 2, state := 10 })]
    poll_interval := 100
    poll_throttle := 7
    base := { stopping := false, healthy := true } }

/-- A thread polling A on channel 1 only. -/
def one_root_thread : PollingThread Nat Flags :=
  { roots := [(1, { root := "A", command_id := 10, channel_id := 1, state := 2 })]
    poll_interval := 100
    poll_throttle := 7
    base := { stopping := false, healthy := true } }

/-- A thread as constructed, with no roots. -/
def no_roots_thread : PollingThread Nat Flags :=
  PollingThread.create 100 7 { stopping := false, healthy := true }

def add_command (id : CommandID) (root : String) (channel_id : ChannelID) : CommandPayload :=
  { id := id, action := CommandAction.COMMAND_ADD, root := root, arg := channel_id,
    split_count := 1 }

def remove_command (id : CommandID) (channel_id : ChannelID) : CommandPayload :=
  { id := id, action := CommandAction.COMMAND_REMOVE, root := "", arg := channel_id,
    split_count := 1 }

/-- Externals whose `handle_commands` fails after the stopping flag was set. -/
def failing_externals : Externals Nat Flags :=
  counting_externals (fun path => if path = "A" then 2 else 10)
    (fun pt => ({ pt with base := { pt.base with stopping := true } }, Result.error "in queue"))

/-- Externals whose `handle_commands` succeeds after the stopping flag was set. -/
def stopping_externals : Externals Nat Flags :=
  counting_externals (fun path => if path = "A" then 2 else 10)
    (fun pt => ({ pt with base := { pt.base with stopping := true } }, Result.ok 1))

/-! ## Logger invariant -/

/-- The file logger that a state's slot points at, as the list of what the next
replacement deletes: `replace_logger` deletes `prior` unless it is the sentinel,
and `delete nullptr` does nothing. -/
def LoggerState.owned (s : LoggerState) : List LoggerPtr :=
  match s.slot with
  | LoggerPtr.file id => [LoggerPtr.file id]
  | _ => []

/-- What holds of the logger state of a thread between calls: the sentinel was
never deleted, the slot points at a file logger that was created, and a file
logger was deleted once if it was created and is not in the slot, never
otherwise. -/
def LoggerState.Inv (s : LoggerState) : Prop :=
  LoggerPtr.the_null_logger ∉ s.deleted ∧
  (∀ id, s.slot = LoggerPtr.file id → id < s.created.length) ∧
  (∀ id, s.deleted.count (LoggerPtr.file id) =
    if id < s.created.length ∧ s.slot ≠ LoggerPtr.file id then 1 else 0)

/-! # Theorems -/

/-! ## The poll cycle -/

theorem size_sub_eq (a b : Nat) (hb : b ≤ a) (ha : a < SIZE_MOD) : size_sub a b = a - b := by
  unfold size_sub
  unfold SIZE_MOD at *
  norm_num at *
  omega

theorem cycle_loop_nil {σ : Type}
    (advance : PolledRoot σ → MessageBuffer → Nat → PolledRoot σ × MessageBuffer × Nat)
    (buffer : MessageBuffer) (remaining roots_left : Nat) :
    cycle_loop advance [] buffer remaining roots_left = some ([], buffer, []) := by
  rw [cycle_loop]

theorem cycle_loop_cons {σ : Type}
    (advance : PolledRoot σ → MessageBuffer → Nat → PolledRoot σ × MessageBuffer × Nat)
    (c : ChannelID) (root : PolledRoot σ) (rest : RootMap σ) (buffer : MessageBuffer)
    (remaining roots_left : Nat) :
    cycle_loop advance ((c, root) :: rest) buffer remaining roots_left =
      if roots_left = 0 then none
      else
        match cycle_loop advance rest (advance root buffer (remaining / roots_left)).2.1
            (size_sub remaining (advance root buffer (remaining / roots_left)).2.2)
            (roots_left - 1) with
        | none => none
        | some later =>
          some ((c, (advance root buffer (remaining / roots_left)).1) :: later.1, later.2.1,
            { channel := c, roots_left := roots_left, remaining := remaining,
              allotment := remaining / roots_left,
              progress := (advance root buffer (remaining / roots_left)).2.2 } :: later.2.2) := by
  rw [cycle_loop]

/-- Inversion of a successful run of the loop from a non-empty position. -/
theorem cycle_loop_cons_some {σ : Type}
    {advance : PolledRoot σ → MessageBuffer → Nat → PolledRoot σ × MessageBuffer × Nat}
    {c : ChannelID} {root : PolledRoot σ} {rest : RootMap σ} {buffer : MessageBuffer}
    {remaining roots_left : Nat} {out : RootMap σ × MessageBuffer × List Visit}
    (h : cycle_loop advance ((c, root) :: rest) buffer remaining roots_left = some out) :
    roots_left ≠ 0 ∧
    ∃ later, cycle_loop advance rest (advance root buffer (remaining / roots_left)).2.1
          (size_sub remaining (advance root buffer (remaining / roots_left)).2.2)
          (roots_left - 1) = some later ∧
      out = ((c, (advance root buffer (remaining / roots_left)).1) :: later.1, later.2.1,
            { channel := c, roots_left := roots_left, remaining := remaining,
              allotment := remaining / roots_left,
              progress := (advance root buffer (remaining / roots_left)).2.2 } :: later.2.2) := by
  rw [cycle_loop_cons] at h
  by_cases h0 : roots_left = 0
  · simp [h0] at h
  · refine ⟨h0, ?_⟩
    rw [if_neg h0] at h
    cases hl : cycle_loop advance rest (advance root buffer (remaining / roots_left)).2.1
          (size_sub remaining (advance root buffer (remaining / roots_left)).2.2)
          (roots_left - 1) with
    | none => rw [hl] at h; simp at h
    | some later =>
      rw [hl] at h
      simp only [Option.some.injEq] at h
      exact ⟨later, rfl, h.symm⟩

/-- The loop never divides by zero when `roots_left` starts as the number of
roots still to visit. -/
theorem cycle_loop_total {σ : Type}
    (advance : PolledRoot σ → MessageBuffer → Nat → PolledRoot σ × MessageBuffer × Nat) :
    ∀ (roots : RootMap σ) (buffer : MessageBuffer) (remaining roots_left : Nat),
      roots_left = roots.length →
      ∃ out, cycle_loop advance roots buffer remaining roots_left = some out := by
  intro roots
  induction roots with
  | nil => intro buffer remaining roots_left _; exact ⟨_, cycle_loop_nil advance buffer remaining roots_left⟩
  | cons e rest ih =>
    intro buffer remaining roots_left hlen
    obtain ⟨c, root⟩ := e
    have h0 : roots_left ≠ 0 := by simp [hlen]
    have hrest : roots_left - 1 = rest.length := by simp [hlen]
    obtain ⟨later, hl⟩ := ih (advance root buffer (remaining / roots_left)).2.1
      (size_sub remaining (advance root buffer (remaining / roots_left)).2.2) (roots_left - 1) hrest
    rw [cycle_loop_cons, if_neg h0, hl]
    exact ⟨_, rfl⟩

/-- The loop visits the roots in the iteration order of the map and keeps the
keys of the map. -/
theorem cycle_loop_channels {σ : Type}
    (advance : PolledRoot σ → MessageBuffer → Nat → PolledRoot σ × MessageBuffer × Nat) :
    ∀ (roots : RootMap σ) (buffer : MessageBuffer) (remaining roots_left : Nat)
      (out : RootMap σ × MessageBuffer × List Visit),
      cycle_loop advance roots buffer remaining roots_left = some out →
      out.2.2.map Visit.channel = roots.keys ∧ out.1.keys = roots.keys := by
  intro roots
  induction roots with
  | nil =>
    intro buffer remaining roots_left out h
    rw [cycle_loop_nil] at h
    simp only [Option.some.injEq] at h
    subst h
    simp [RootMap.keys]
  | cons e rest ih =>
    intro buffer remaining roots_left out h
    obtain ⟨c, root⟩ := e
    obtain ⟨_, later, hl, hout⟩ := cycle_loop_cons_some h
    obtain ⟨h1, h2⟩ := ih _ _ _ later hl
    subst hout
    simp only [RootMap.keys] at h1 h2 ⊢
    simp [h1, h2]

/-- With an `advance` that respects its allotment, the slots consumed from a
position onwards never exceed the counter `remaining` there, and no
subtraction `remaining -= progress` wraps. -/
theorem cycle_loop_budget {σ : Type}
    (advance : PolledRoot σ → MessageBuffer → Nat → PolledRoot σ × MessageBuffer × Nat)
    (hadv : ∀ root buffer allotment, (advance root buffer allotment).2.2 ≤ allotment) :
    ∀ (roots : RootMap σ) (buffer : MessageBuffer) (remaining roots_left : Nat)
      (out : RootMap σ × MessageBuffer × List Visit),
      remaining < SIZE_MOD →
      cycle_loop advance roots buffer remaining roots_left = some out →
      (out.2.2.map Visit.progress).sum ≤ remaining ∧
      ∀ v ∈ out.2.2, v.progress ≤ v.allotment ∧ v.progress ≤ v.remaining ∧
        v.remaining < SIZE_MOD := by
  intro roots
  induction roots with
  | nil =>
    intro buffer remaining roots_left out _ h
    rw [cycle_loop_nil] at h
    simp only [Option.some.injEq] at h
    subst h
    simp
  | cons e rest ih =>
    intro buffer remaining roots_left out hrem h
    obtain ⟨c, root⟩ := e
    obtain ⟨_, later, hl, hout⟩ := cycle_loop_cons_some h
    have hp : (advance root buffer (remaining / roots_left)).2.2 ≤ remaining / roots_left :=
      hadv _ _ _
    have hd : remaining / roots_left ≤ remaining := Nat.div_le_self _ _
    have hsub := size_sub_eq remaining (advance root buffer (remaining / roots_left)).2.2
      (le_trans hp hd) hrem
    rw [hsub] at hl
    obtain ⟨h1, h2⟩ := ih _ _ _ later (by omega) hl
    subst hout
    refine ⟨?_, ?_⟩
    · simp only [List.map_cons, List.sum_cons]
      omega
    · intro v hv
      rcases List.mem_cons.mp hv with rfl | hv
      · exact ⟨hp, le_trans hp hd, hrem⟩
      · exact h2 v hv

/-- With an `advance` that respects its allotment: at the visit of rank `i` the
divisor is the start value of `roots_left` less `i` and is positive, the counter
`remaining` is its start value less what the earlier visits consumed, and the
allotment is their quotient. -/
theorem cycle_loop_allotments {σ : Type}
    (advance : PolledRoot σ → MessageBuffer → Nat → PolledRoot σ × MessageBuffer × Nat)
    (hadv : ∀ root buffer allotment, (advance root buffer allotment).2.2 ≤ allotment) :
    ∀ (roots : RootMap σ) (buffer : MessageBuffer) (remaining roots_left : Nat)
      (out : RootMap σ × MessageBuffer × List Visit),
      remaining < SIZE_MOD →
      cycle_loop advance roots buffer remaining roots_left = some out →
      ∀ (i : Nat) (v : Visit), out.2.2[i]? = some v →
        1 ≤ v.roots_left ∧ v.roots_left = roots_left - i ∧
        v.remaining = remaining - ((out.2.2.take i).map Visit.progress).sum ∧
        v.allotment = v.remaining / v.roots_left := by
  intro roots
  induction roots with
  | nil =>
    intro buffer remaining roots_left out _ h i v hv
    rw [cycle_loop_nil] at h
    simp only [Option.some.injEq] at h
    subst h
    simp at hv
  | cons e rest ih =>
    intro buffer remaining roots_left out hrem h i v hv
    obtain ⟨c, root⟩ := e
    obtain ⟨h0, later, hl, hout⟩ := cycle_loop_cons_some h
    have hp : (advance root buffer (remaining / roots_left)).2.2 ≤ remaining / roots_left :=
      hadv _ _ _
    have hd : remaining / roots_left ≤ remaining := Nat.div_le_self _ _
    have hsub := size_sub_eq remaining (advance root buffer (remaining / roots_left)).2.2
      (le_trans hp hd) hrem
    rw [hsub] at hl
    subst hout
    cases i with
    | zero =>
      simp only [List.getElem?_cons_zero, Option.some.injEq] at hv
      subst hv
      refine ⟨Nat.one_le_iff_ne_zero.mpr h0, (Nat.sub_zero _).symm, ?_, rfl⟩
      simp
    | succ j =>
      simp only [List.getElem?_cons_succ] at hv
      obtain ⟨a1, a2, a3, a4⟩ := ih _ _ _ later (by omega) hl j v hv
      refine ⟨a1, by omega, ?_, a4⟩
      simp only [List.take_succ_cons, List.map_cons, List.sum_cons]
      omega

/-- The function `cycle` always returns, and its visits are those of the loop run
from `remaining = poll_throttle` and `roots_left = roots.size()`. -/
theorem cycle_returns {σ β : Type} (ext : Externals σ β) (pt : PollingThread σ β) :
    ∃ out looped, cycle ext pt = some out ∧
      cycle_loop ext.advance pt.roots [] (pt.poll_throttle % SIZE_MOD) pt.roots.length
        = some looped ∧
      out.visits = looped.2.2 ∧ out.thread.roots = looped.1 ∧
      out.thread.poll_interval = pt.poll_interval ∧
      out.thread.poll_throttle = pt.poll_throttle := by
  obtain ⟨looped, hl⟩ := cycle_loop_total ext.advance pt.roots []
    (pt.poll_throttle % SIZE_MOD) pt.roots.length rfl
  refine ⟨{ thread := { pt with roots := looped.1, base := (ext.emit_all pt.base looped.2.1).1 },
            result := (ext.emit_all pt.base looped.2.1).2, visits := looped.2.2 },
    looped, ?_, hl, rfl, rfl, rfl, rfl⟩
  simp only [cycle, hl]

theorem size_mod_pos : 0 < SIZE_MOD := by
  unfold SIZE_MOD
  norm_num

theorem counting_advance_le (root : PolledRoot Nat) (buffer : MessageBuffer) (allotment : Nat) :
    (counting_advance root buffer allotment).2.2 ≤ allotment := by
  simp [counting_advance]

/-- C1: if every call of advance consumes at most its allotment, then one call of
cycle returns, visits every root, the slots consumed by all roots sum to at most
poll_throttle, and at every subtraction `remaining -= progress` the progress is
at most the counter, so the wrapping subtraction is the exact difference. -/
theorem cycle_within_throttle {σ β : Type} (ext : Externals σ β) (pt : PollingThread σ β)
    (hadv : ∀ root buffer allotment, (ext.advance root buffer allotment).2.2 ≤ allotment) :
    ∃ out, cycle ext pt = some out ∧
      out.visits.map Visit.channel = pt.roots.keys ∧
      (out.visits.map Visit.progress).sum ≤ pt.poll_throttle ∧
      ∀ v ∈ out.visits, v.progress ≤ v.allotment ∧ v.progress ≤ v.remaining ∧
        size_sub v.remaining v.progress = v.remaining - v.progress := by
  obtain ⟨out, looped, hc, hl, hv, _⟩ := cycle_returns ext pt
  have hrem : pt.poll_throttle % SIZE_MOD < SIZE_MOD := Nat.mod_lt _ size_mod_pos
  obtain ⟨hsum, hall⟩ := cycle_loop_budget ext.advance hadv _ _ _ _ looped hrem hl
  refine ⟨out, hc, ?_, ?_, ?_⟩
  · rw [hv]
    exact (cycle_loop_channels ext.advance _ _ _ _ looped hl).1
  · rw [hv]
    exact le_trans hsum (Nat.mod_le _ _)
  · intro v hmem
    rw [hv] at hmem
    obtain ⟨h1, h2, h3⟩ := hall v hmem
    exact ⟨h1, h2, size_sub_eq _ _ h2 h3⟩

theorem cycle_within_throttle_witness :
    (∀ root buffer allotment, (two_roots_externals.advance root buffer allotment).2.2 ≤ allotment) ∧
    ∃ out, cycle two_roots_externals two_roots_thread = some out ∧
      out.visits.map Visit.channel = two_roots_thread.roots.keys ∧
      (out.visits.map Visit.progress).sum ≤ two_roots_thread.poll_throttle ∧
      ∀ v ∈ out.visits, v.progress ≤ v.allotment ∧ v.progress ≤ v.remaining ∧
        size_sub v.remaining v.progress = v.remaining - v.progress :=
  ⟨counting_advance_le, cycle_within_throttle two_roots_externals two_roots_thread counting_advance_le⟩

/-- C2: if every call of advance consumes at most its allotment and poll_throttle
fits a `size_t`, then one call of cycle over n roots returns after n visits, made
in the iteration order of the map; at the visit of rank i the divisor roots_left
is n - i and at least 1, the allotment is
(poll_throttle - slots consumed by the visits before it) / (n - i), and at the
last visit it is that whole remainder. -/
theorem cycle_allotment {σ β : Type} (ext : Externals σ β) (pt : PollingThread σ β)
    (hadv : ∀ root buffer allotment, (ext.advance root buffer allotment).2.2 ≤ allotment)
    (hthr : pt.poll_throttle < SIZE_MOD) :
    ∃ out, cycle ext pt = some out ∧
      out.visits.length = pt.roots.length ∧
      out.visits.map Visit.channel = pt.roots.keys ∧
      ∀ (i : Nat) (v : Visit), out.visits[i]? = some v →
        v.roots_left = pt.roots.length - i ∧ 1 ≤ pt.roots.length - i ∧
        v.allotment =
          (pt.poll_throttle - ((out.visits.take i).map Visit.progress).sum)
            / (pt.roots.length - i) ∧
        (i + 1 = pt.roots.length →
          v.allotment = pt.poll_throttle - ((out.visits.take i).map Visit.progress).sum) := by
  obtain ⟨out, looped, hc, hl, hv, _⟩ := cycle_returns ext pt
  rw [Nat.mod_eq_of_lt hthr] at hl
  have hch := (cycle_loop_channels ext.advance _ _ _ _ looped hl).1
  refine ⟨out, hc, ?_, ?_, ?_⟩
  · rw [hv]
    have := congrArg List.length hch
    simpa [RootMap.keys] using this
  · rw [hv]
    exact hch
  · intro i v hi
    rw [hv] at hi ⊢
    obtain ⟨a1, a2, a3, a4⟩ := cycle_loop_allotments ext.advance hadv _ _ _ _ looped hthr hl i v hi
    rw [a3, a2] at a4
    refine ⟨a2, by omega, a4, ?_⟩
    intro hlast
    rw [a4]
    have : pt.roots.length - i = 1 := by omega
    rw [this, Nat.div_one]

theorem cycle_allotment_witness :
    ((∀ root buffer allotment, (two_roots_externals.advance root buffer allotment).2.2 ≤ allotment) ∧
      two_roots_thread.poll_throttle < SIZE_MOD) ∧
    (∃ out, cycle two_roots_externals two_roots_thread = some out ∧
      out.visits.length = two_roots_thread.roots.length ∧
      out.visits.map Visit.channel = two_roots_thread.roots.keys ∧
      ∀ (i : Nat) (v : Visit), out.visits[i]? = some v →
        v.roots_left = two_roots_thread.roots.length - i ∧
        1 ≤ two_roots_thread.roots.length - i ∧
        v.allotment =
          (two_roots_thread.poll_throttle - ((out.visits.take i).map Visit.progress).sum)
            / (two_roots_thread.roots.length - i) ∧
        (i + 1 = two_roots_thread.roots.length →
          v.allotment =
            two_roots_thread.poll_throttle - ((out.visits.take i).map Visit.progress).sum)) ∧
    (cycle two_roots_externals two_roots_thread).map CycleOutcome.visits =
      some [{ channel := 1, roots_left := 2, remaining := 7, allotment := 3, progress := 2 },
            { channel := 2, roots_left := 1, remaining := 5, allotment := 5, progress := 5 }] :=
  ⟨⟨counting_advance_le, by decide⟩,
   cycle_allotment two_roots_externals two_roots_thread counting_advance_le (by decide),
   by decide⟩

/-! ## The roots map -/

theorem RootMap.WF_nil {σ : Type} : RootMap.WF ([] : RootMap σ) := List.Pairwise.nil

theorem RootMap.WF_tail {σ : Type} {e : ChannelID × PolledRoot σ} {m : RootMap σ}
    (h : RootMap.WF (e :: m)) : RootMap.WF m :=
  (List.pairwise_cons.mp h).2

theorem RootMap.WF_head {σ : Type} {e : ChannelID × PolledRoot σ} {m : RootMap σ}
    (h : RootMap.WF (e :: m)) : ∀ x ∈ m, e.1 < x.1 :=
  (List.pairwise_cons.mp h).1

/-- A key that `find` locates is the key of an entry. -/
theorem RootMap.find_some_mem {σ : Type} :
    ∀ (m : RootMap σ) (c : ChannelID) (r : PolledRoot σ), m.find c = some r → (c, r) ∈ m := by
  intro m
  induction m with
  | nil => intro c r h; simp [RootMap.find] at h
  | cons e rest ih =>
    intro c r h
    obtain ⟨k, v⟩ := e
    by_cases hk : k = c
    · simp only [RootMap.find, if_pos hk, Option.some.injEq] at h
      subst hk; subst h
      exact List.mem_cons_self _ _
    · simp only [RootMap.find, if_neg hk] at h
      exact List.mem_cons_of_mem _ (ih c r h)

/-- A key that `find` does not locate is the key of no entry. -/
theorem RootMap.find_none_not_mem {σ : Type} :
    ∀ (m : RootMap σ) (c : ChannelID), m.find c = none → ∀ x ∈ m, x.1 ≠ c := by
  intro m
  induction m with
  | nil => intro c _ x hx; simp at hx
  | cons e rest ih =>
    intro c h x hx
    obtain ⟨k, v⟩ := e
    by_cases hk : k = c
    · simp [RootMap.find, hk] at h
    · simp only [RootMap.find, if_neg hk] at h
      rcases List.mem_cons.mp hx with rfl | hx
      · exact hk
      · exact ih c h x hx

theorem RootMap.find_eq_none_of_forall_ne {σ : Type} :
    ∀ (m : RootMap σ) (c : ChannelID), (∀ x ∈ m, x.1 ≠ c) → m.find c = none := by
  intro m
  induction m with
  | nil => intro c _; rfl
  | cons e rest ih =>
    intro c h
    obtain ⟨k, v⟩ := e
    have hk : k ≠ c := h (k, v) (List.mem_cons_self _ _)
    simp only [RootMap.find, if_neg hk]
    exact ih c (fun x hx => h x (List.mem_cons_of_mem _ hx))

theorem RootMap.erase_of_find_none {σ : Type} :
    ∀ (m : RootMap σ) (c : ChannelID), m.find c = none → m.erase c = m := by
  intro m
  induction m with
  | nil => intro c _; rfl
  | cons e rest ih =>
    intro c h
    obtain ⟨k, v⟩ := e
    by_cases hk : k = c
    · simp [RootMap.find, hk] at h
    · simp only [RootMap.find, if_neg hk] at h
      simp only [RootMap.erase, if_neg hk, ih c h]

/-- On a well-formed map `erase` removes exactly the entries of the key. -/
theorem RootMap.erase_eq_filter {σ : Type} :
    ∀ (m : RootMap σ) (c : ChannelID), m.WF →
      m.erase c = m.filter (fun e => decide (e.1 ≠ c)) := by
  intro m
  induction m with
  | nil => intro c _; rfl
  | cons e rest ih =>
    intro c hwf
    obtain ⟨k, v⟩ := e
    by_cases hk : k = c
    · subst hk
      have hall : ∀ x ∈ rest, decide (x.1 ≠ k) = true := by
        intro x hx
        have := RootMap.WF_head hwf x hx
        simp only [ne_eq, decide_not, Bool.not_eq_true', decide_eq_false_iff_not]
        exact Nat.ne_of_gt this
      simp only [RootMap.erase, if_true, List.filter_cons, ne_eq, not_true_eq_false,
        decide_False, Bool.false_eq_true, if_false]
      exact (List.filter_eq_self.mpr hall).symm
    · simp only [RootMap.erase, if_neg hk, List.filter_cons, ne_eq, hk, not_false_eq_true,
        decide_True, if_true]
      rw [ih c (RootMap.WF_tail hwf)]
      simp

theorem RootMap.WF_erase {σ : Type} (m : RootMap σ) (c : ChannelID) (hwf : m.WF) :
    (m.erase c).WF := by
  rw [RootMap.erase_eq_filter m c hwf]
  exact List.Pairwise.filter _ hwf

theorem RootMap.find_erase_self {σ : Type} (m : RootMap σ) (c : ChannelID) (hwf : m.WF) :
    (m.erase c).find c = none := by
  apply RootMap.find_eq_none_of_forall_ne
  intro x hx
  rw [RootMap.erase_eq_filter m c hwf] at hx
  simpa using (List.mem_filter.mp hx).2

theorem RootMap.find_erase_other {σ : Type} :
    ∀ (m : RootMap σ) (c d : ChannelID), d ≠ c → (m.erase c).find d = m.find d := by
  intro m
  induction m with
  | nil => intro c d _; rfl
  | cons e rest ih =>
    intro c d hd
    obtain ⟨k, v⟩ := e
    by_cases hk : k = c
    · subst hk
      have : ¬ k = d := fun h => hd h.symm
      simp only [RootMap.erase, if_true, RootMap.find, if_neg this]
    · simp only [RootMap.erase, if_neg hk, RootMap.find, ih c d hd]

/-- The entries after `emplace` are the entries before, and the new one when the
key was absent. -/
theorem RootMap.mem_emplace {σ : Type} :
    ∀ (m : RootMap σ) (c : ChannelID) (r : PolledRoot σ) (x : ChannelID × PolledRoot σ),
      x ∈ m.emplace c r → x ∈ m ∨ x = (c, r) := by
  intro m
  induction m with
  | nil => intro c r x hx; simp [RootMap.emplace] at hx; exact Or.inr hx
  | cons e rest ih =>
    intro c r x hx
    obtain ⟨k, v⟩ := e
    by_cases h1 : c < k
    · simp only [RootMap.emplace, if_pos h1] at hx
      rcases List.mem_cons.mp hx with rfl | hx
      · exact Or.inr rfl
      · exact Or.inl hx
    · by_cases h2 : c = k
      · simp only [RootMap.emplace, if_neg h1, if_pos h2] at hx
        exact Or.inl hx
      · simp only [RootMap.emplace, if_neg h1, if_neg h2] at hx
        rcases List.mem_cons.mp hx with rfl | hx
        · exact Or.inl (List.mem_cons_self _ _)
        · rcases ih c r x hx with h | h
          · exact Or.inl (List.mem_cons_of_mem _ h)
          · exact Or.inr h

theorem RootMap.WF_emplace {σ : Type} :
    ∀ (m : RootMap σ) (c : ChannelID) (r : PolledRoot σ), m.WF → (m.emplace c r).WF := by
  intro m
  induction m with
  | nil => intro c r _; simp [RootMap.emplace, RootMap.WF]
  | cons e rest ih =>
    intro c r hwf
    obtain ⟨k, v⟩ := e
    by_cases h1 : c < k
    · simp only [RootMap.emplace, if_pos h1]
      refine List.pairwise_cons.mpr ⟨?_, hwf⟩
      intro x hx
      rcases List.mem_cons.mp hx with rfl | hx
      · exact h1
      · exact lt_trans h1 (RootMap.WF_head hwf x hx)
    · by_cases h2 : c = k
      · simp only [RootMap.emplace, if_neg h1, if_pos h2]
        exact hwf
      · simp only [RootMap.emplace, if_neg h1, if_neg h2]
        refine List.pairwise_cons.mpr ⟨?_, ih c r (RootMap.WF_tail hwf)⟩
        intro x hx
        rcases RootMap.mem_emplace rest c r x hx with h | h
        · exact RootMap.WF_head hwf x h
        · subst h
          exact Nat.lt_of_le_of_ne (Nat.le_of_not_lt h1) (fun h => h2 h.symm)

/-- On a well-formed map `emplace` on a key that has an entry changes nothing. -/
theorem RootMap.emplace_of_find_some {σ : Type} :
    ∀ (m : RootMap σ) (c : ChannelID) (r r0 : PolledRoot σ), m.WF → m.find c = some r0 →
      m.emplace c r = m := by
  intro m
  induction m with
  | nil => intro c r r0 _ h; simp [RootMap.find] at h
  | cons e rest ih =>
    intro c r r0 hwf h
    obtain ⟨k, v⟩ := e
    by_cases hk : k = c
    · subst hk
      simp [RootMap.emplace]
    · simp only [RootMap.find, if_neg hk] at h
      have hlt : k < c := RootMap.WF_head hwf (c, r0) (RootMap.find_some_mem rest c r0 h)
      have h1 : ¬ c < k := Nat.lt_asymm hlt
      have h2 : ¬ c = k := fun h => hk h.symm
      simp only [RootMap.emplace, if_neg h1, if_neg h2, ih c r r0 (RootMap.WF_tail hwf) h]

/-- After `emplace` on a key that had no entry, `find` locates the new entry. -/
theorem RootMap.find_emplace_of_find_none {σ : Type} :
    ∀ (m : RootMap σ) (c : ChannelID) (r : PolledRoot σ), m.find c = none →
      (m.emplace c r).find c = some r := by
  intro m
  induction m with
  | nil => intro c r _; simp [RootMap.emplace, RootMap.find]
  | cons e rest ih =>
    intro c r h
    obtain ⟨k, v⟩ := e
    by_cases hk : k = c
    · simp [RootMap.find, hk] at h
    · simp only [RootMap.find, if_neg hk] at h
      have h2 : ¬ c = k := fun h => hk h.symm
      by_cases h1 : c < k
      · simp [RootMap.emplace, if_pos h1, RootMap.find]
      · simp only [RootMap.emplace, if_neg h1, if_neg h2, RootMap.find, if_neg hk, ih c r h]

theorem RootMap.find_emplace_other {σ : Type} :
    ∀ (m : RootMap σ) (c d : ChannelID) (r : PolledRoot σ), d ≠ c →
      (m.emplace c r).find d = m.find d := by
  intro m
  induction m with
  | nil =>
    intro c d r hd
    have : ¬ c = d := fun h => hd h.symm
    simp [RootMap.emplace, RootMap.find, this]
  | cons e rest ih =>
    intro c d r hd
    obtain ⟨k, v⟩ := e
    have hcd : ¬ c = d := fun h => hd h.symm
    by_cases h1 : c < k
    · simp only [RootMap.emplace, if_pos h1]
      rw [RootMap.find, if_neg hcd]
    · by_cases h2 : c = k
      · simp only [RootMap.emplace, if_neg h1, if_pos h2]
      · simp only [RootMap.emplace, if_neg h1, if_neg h2, RootMap.find, ih c d r hd]

/-- The keys of a well-formed map are strictly ascending, hence distinct. -/
theorem RootMap.keys_sorted {σ : Type} (m : RootMap σ) (hwf : m.WF) :
    m.keys.Pairwise (fun a b => a < b) := by
  unfold RootMap.keys
  exact List.pairwise_map.mpr hwf

theorem RootMap.keys_count_le_one {σ : Type} (m : RootMap σ) (hwf : m.WF) (c : ChannelID) :
    m.keys.count c ≤ 1 := by
  have hnd : m.keys.Nodup :=
    (RootMap.keys_sorted m hwf).imp (fun h => Nat.ne_of_lt h)
  exact List.nodup_iff_count_le_one.mp hnd c

/-! ## The command hooks -/

/-- The function `handle_remove_command` in one equation: the entry of the channel
is erased, and the outcome tells whether the map is empty afterwards. -/
theorem handle_remove_command_eq {σ β : Type} (pt : PollingThread σ β)
    (command : CommandPayload) :
    handle_remove_command pt command =
      ({ pt with roots := pt.roots.erase command.get_channel_id },
        ok_result (if (pt.roots.erase command.get_channel_id).isEmpty
          then CommandOutcome.TRIGGER_STOP else CommandOutcome.ACK)) := by
  unfold handle_remove_command
  cases hf : pt.roots.find command.get_channel_id with
  | none =>
    rw [RootMap.erase_of_find_none pt.roots _ hf]
    by_cases he : pt.roots.isEmpty <;> simp [he]
  | some r =>
    by_cases he : (pt.roots.erase command.get_channel_id).isEmpty <;> simp [he]

theorem handle_add_remove_WF {σ β : Type} (ext : Externals σ β) :
    ∀ (commands : List CommandPayload) (pt : PollingThread σ β), pt.roots.WF →
      (handle_add_remove ext pt commands).roots.WF := by
  intro commands
  induction commands with
  | nil => intro pt h; exact h
  | cons command rest ih =>
    intro pt h
    rw [handle_add_remove]
    split
    · apply ih
      exact RootMap.WF_emplace _ _ _ h
    · apply ih
      rw [handle_remove_command_eq]
      exact RootMap.WF_erase _ _ h
    · exact ih pt h

/-- C3: on a roots map as `std::map` keeps it, handle_remove_command for channel c
leaves a map with no entry for c that is the map before without the entries of
c, so every other channel keeps its root; poll_interval, poll_throttle and the
base state are unchanged; the outcome is TRIGGER_STOP exactly when the resulting
map is empty and ACK exactly when it is not. -/
theorem handle_remove_command_erases {σ β : Type} (pt : PollingThread σ β)
    (command : CommandPayload) (hwf : pt.roots.WF) :
    (handle_remove_command pt command).1.roots.find command.get_channel_id = none ∧
    (handle_remove_command pt command).1.roots =
      pt.roots.filter (fun e => decide (e.1 ≠ command.get_channel_id)) ∧
    (∀ d, d ≠ command.get_channel_id →
      (handle_remove_command pt command).1.roots.find d = pt.roots.find d) ∧
    (handle_remove_command pt command).1.poll_interval = pt.poll_interval ∧
    (handle_remove_command pt command).1.poll_throttle = pt.poll_throttle ∧
    (handle_remove_command pt command).1.base = pt.base ∧
    ((handle_remove_command pt command).2 = Result.ok CommandOutcome.TRIGGER_STOP ↔
      (handle_remove_command pt command).1.roots = []) ∧
    ((handle_remove_command pt command).2 = Result.ok CommandOutcome.ACK ↔
      (handle_remove_command pt command).1.roots ≠ []) := by
  rw [handle_remove_command_eq]
  refine ⟨RootMap.find_erase_self _ _ hwf, RootMap.erase_eq_filter _ _ hwf,
    fun d hd => RootMap.find_erase_other _ _ d hd, rfl, rfl, rfl, ?_, ?_⟩
  · cases he : pt.roots.erase command.get_channel_id with
    | nil => simp [ok_result]
    | cons e rest => simp [ok_result]
  · cases he : pt.roots.erase command.get_channel_id with
    | nil => simp [ok_result]
    | cons e rest => simp [ok_result]

theorem handle_remove_command_erases_witness :
    one_root_thread.roots.WF ∧
    (handle_remove_command one_root_thread (remove_command 12 1)).1.roots = [] ∧
    (handle_remove_command one_root_thread (remove_command 12 1)).2
      = Result.ok CommandOutcome.TRIGGER_STOP :=
  have hwf : one_root_thread.roots.WF := by
    simp [one_root_thread, RootMap.WF]
  have hrun : (handle_remove_command one_root_thread (remove_command 12 1)).1.roots = [] := by
    decide
  ⟨hwf, hrun,
    (handle_remove_command_erases one_root_thread (remove_command 12 1) hwf).2.2.2.2.2.2.1.mpr hrun⟩

/-- C4, as the claim states it, fails twice: an Add handled offline returns
TRIGGER_RUN and leaves the roots map without an entry for its channel, and an
Add handled while running on a channel that has a root leaves that root in
place instead of the one constructed from the command. -/
theorem add_inserts_counterexample :
    (handle_offline_command two_roots_externals no_roots_thread (add_command 10 "A" 1)).2
      = Result.ok OfflineCommandOutcome.TRIGGER_RUN ∧
    (handle_offline_command two_roots_externals no_roots_thread
      (add_command 10 "A" 1)).1.roots.find 1 = none ∧
    (handle_add_command two_roots_externals one_root_thread (add_command 11 "B" 1)).1.roots.find 1
      = some { root := "A", command_id := 10, channel_id := 1, state := 2 } ∧
    PolledRoot.construct two_roots_externals "B" 11 1
      ≠ { root := "A", command_id := 10, channel_id := 1, state := 2 } := by
  decide

/-- C4, amended: handle_add_command returns NOTHING, changes only the roots map,
and emplaces a PolledRoot constructed from (r, k, c) under key c: when c had no
root that root is the entry of c afterwards, when c had one (on a map as
`std::map` keeps it) the map is unchanged, and the other channels keep their
roots. handle_offline_command on an Add, when the base handler did not fail,
returns TRIGGER_RUN and leaves roots, poll_interval and poll_throttle as they
were: it inserts nothing. -/
theorem add_command_outcomes {σ β : Type} (ext : Externals σ β) (pt : PollingThread σ β)
    (command : CommandPayload) :
    (handle_add_command ext pt command).2 = Result.ok CommandOutcome.NOTHING ∧
    (handle_add_command ext pt command).1.roots =
      pt.roots.emplace command.get_channel_id
        (PolledRoot.construct ext command.get_root command.get_id command.get_channel_id) ∧
    (handle_add_command ext pt command).1.poll_interval = pt.poll_interval ∧
    (handle_add_command ext pt command).1.poll_throttle = pt.poll_throttle ∧
    (handle_add_command ext pt command).1.base = pt.base ∧
    (pt.roots.find command.get_channel_id = none →
      (handle_add_command ext pt command).1.roots.find command.get_channel_id =
        some (PolledRoot.construct ext command.get_root command.get_id command.get_channel_id)) ∧
    (∀ r0, pt.roots.WF → pt.roots.find command.get_channel_id = some r0 →
      (handle_add_command ext pt command).1.roots = pt.roots) ∧
    (∀ d, d ≠ command.get_channel_id →
      (handle_add_command ext pt command).1.roots.find d = pt.roots.find d) ∧
    (command.get_action = CommandAction.COMMAND_ADD →
      (ext.thread_handle_offline_command pt.base command).2.is_error = false →
      (handle_offline_command ext pt command).2 = Result.ok OfflineCommandOutcome.TRIGGER_RUN ∧
      (handle_offline_command ext pt command).1.roots = pt.roots ∧
      (handle_offline_command ext pt command).1.poll_interval = pt.poll_interval ∧
      (handle_offline_command ext pt command).1.poll_throttle = pt.poll_throttle) := by
  refine ⟨rfl, rfl, rfl, rfl, rfl, ?_, ?_, ?_, ?_⟩
  · intro h
    exact RootMap.find_emplace_of_find_none _ _ _ h
  · intro r0 hwf h
    exact RootMap.emplace_of_find_some _ _ _ r0 hwf h
  · intro d hd
    exact RootMap.find_emplace_other _ _ d _ hd
  · intro hact hok
    simp only [handle_offline_command, hok, hact, if_true, ok_result]
    simp

theorem add_command_outcomes_witness :
    (no_roots_thread.roots.find (add_command 10 "A" 1).get_channel_id = none ∧
      (handle_add_command two_roots_externals no_roots_thread
        (add_command 10 "A" 1)).1.roots.find 1 =
        some { root := "A", command_id := 10, channel_id := 1, state := 2 }) ∧
    ((one_root_thread.roots.WF ∧
        one_root_thread.roots.find (add_command 11 "B" 1).get_channel_id =
          some { root := "A", command_id := 10, channel_id := 1, state := 2 }) ∧
      (handle_add_command two_roots_externals one_root_thread (add_command 11 "B" 1)).1.roots =
        one_root_thread.roots) ∧
    (((2 : ChannelID) ≠ (add_command 11 "B" 1).get_channel_id) ∧
      (handle_add_command two_roots_externals one_root_thread
        (add_command 11 "B" 1)).1.roots.find 2 = one_root_thread.roots.find 2) ∧
    (((add_command 10 "A" 1).get_action = CommandAction.COMMAND_ADD ∧
        (two_roots_externals.thread_handle_offline_command no_roots_thread.base
          (add_command 10 "A" 1)).2.is_error = false) ∧
      (handle_offline_command two_roots_externals no_roots_thread (add_command 10 "A" 1)).2
        = Result.ok OfflineCommandOutcome.TRIGGER_RUN ∧
      (handle_offline_command two_roots_externals no_roots_thread (add_command 10 "A" 1)).1.roots
        = no_roots_thread.roots) :=
  have hwf : one_root_thread.roots.WF := by simp [one_root_thread, RootMap.WF]
  have h := add_command_outcomes two_roots_externals no_roots_thread (add_command 10 "A" 1)
  have h1 := add_command_outcomes two_roots_externals one_root_thread (add_command 11 "B" 1)
  ⟨⟨by decide, h.2.2.2.2.2.1 (by decide)⟩,
   ⟨⟨hwf, by decide⟩, h1.2.2.2.2.2.2.1 { root := "A", command_id := 10, channel_id := 1, state := 2 } hwf
      (by decide)⟩,
   ⟨by decide, h1.2.2.2.2.2.2.2.1 2 (by decide)⟩,
   ⟨⟨by decide, by decide⟩,
     (h.2.2.2.2.2.2.2.2 (by decide) (by decide)).1, (h.2.2.2.2.2.2.2.2 (by decide) (by decide)).2.1⟩⟩

/-- C5, as the claim states it, fails: with a root on channel 1 only, a Remove of
channel 2, which has no entry, returns the successful outcome ACK. -/
theorem remove_unknown_counterexample :
    one_root_thread.roots.find (remove_command 12 2).get_channel_id = none ∧
    (handle_remove_command one_root_thread (remove_command 12 2)).2
      = Result.ok CommandOutcome.ACK ∧
    (handle_remove_command one_root_thread (remove_command 12 2)).2.is_error = false := by
  decide

/-- C5, amended: a Remove whose channel has no entry in the roots map changes
nothing and reports no error: the outcome is the successful TRIGGER_STOP when
the map is empty and the successful ACK otherwise. -/
theorem handle_remove_command_unknown {σ β : Type} (pt : PollingThread σ β)
    (command : CommandPayload) (h : pt.roots.find command.get_channel_id = none) :
    (handle_remove_command pt command).1 = pt ∧
    (handle_remove_command pt command).2.is_error = false ∧
    (pt.roots = [] →
      (handle_remove_command pt command).2 = Result.ok CommandOutcome.TRIGGER_STOP) ∧
    (pt.roots ≠ [] →
      (handle_remove_command pt command).2 = Result.ok CommandOutcome.ACK) := by
  rw [handle_remove_command_eq, RootMap.erase_of_find_none _ _ h]
  refine ⟨rfl, rfl, ?_, ?_⟩
  · intro he
    simp [he, ok_result]
  · intro he
    cases hr : pt.roots with
    | nil => exact absurd hr he
    | cons e rest => simp [ok_result]

theorem handle_remove_command_unknown_witness :
    one_root_thread.roots.find (remove_command 12 2).get_channel_id = none ∧
    (handle_remove_command one_root_thread (remove_command 12 2)).1 = one_root_thread ∧
    (handle_remove_command one_root_thread (remove_command 12 2)).2
      = Result.ok CommandOutcome.ACK ∧
    (handle_remove_command no_roots_thread (remove_command 12 2)).2
      = Result.ok CommandOutcome.TRIGGER_STOP :=
  have h := handle_remove_command_unknown one_root_thread (remove_command 12 2) (by decide)
  have h0 := handle_remove_command_unknown no_roots_thread (remove_command 12 2) (by decide)
  ⟨by decide, h.1, h.2.2.2 (by decide), h0.2.2.1 (by decide)⟩

theorem handle_add_remove_create_WF {σ β : Type} (ext : Externals σ β)
    (interval throttle : Nat) (base : β) (commands : List CommandPayload) :
    (handle_add_remove ext (PollingThread.create interval throttle base) commands).roots.WF :=
  handle_add_remove_WF ext commands _ RootMap.WF_nil

theorem RootMap.find_some_count_pos {σ : Type} (m : RootMap σ) (c : ChannelID)
    (r : PolledRoot σ) (h : m.find c = some r) : 0 < m.keys.count c := by
  apply List.count_pos_iff.mpr
  unfold RootMap.keys
  exact List.mem_map.mpr ⟨(c, r), RootMap.find_some_mem m c r h, rfl⟩

/-- C9, as the claim states it, fails: after Add on channel 2 followed by Add on
channel 1, the cycle advances the root of channel 1 first and the root of
channel 2 second. -/
theorem cycle_order_counterexample :
    (handle_add_remove two_roots_externals no_roots_thread
      [add_command 10 "B" 2, add_command 11 "A" 1]).roots.keys = [1, 2] ∧
    (cycle two_roots_externals
      (handle_add_remove two_roots_externals no_roots_thread
        [add_command 10 "B" 2, add_command 11 "A" 1])).map
          (fun out => out.visits.map Visit.channel) = some [1, 2] := by
  decide

/-- C9, amended: after every sequence of Add and Remove commands handled from a
newly constructed thread, the cycle advances every root of the map once, in
ascending order of channel id, whatever the order in which the Add commands
were handled. -/
theorem cycle_visits_ascending {σ β : Type} (ext : Externals σ β)
    (interval throttle : Nat) (base : β) (commands : List CommandPayload) :
    ∃ out,
      cycle ext (handle_add_remove ext (PollingThread.create interval throttle base) commands)
        = some out ∧
      out.visits.map Visit.channel =
        (handle_add_remove ext (PollingThread.create interval throttle base) commands).roots.keys ∧
      (out.visits.map Visit.channel).Pairwise (fun a b => a < b) := by
  obtain ⟨out, looped, hc, hl, hv, _⟩ :=
    cycle_returns ext (handle_add_remove ext (PollingThread.create interval throttle base) commands)
  have hch := (cycle_loop_channels ext.advance _ _ _ _ looped hl).1
  refine ⟨out, hc, ?_, ?_⟩
  · rw [hv]; exact hch
  · rw [hv, hch]
    exact RootMap.keys_sorted _ (handle_add_remove_create_WF ext interval throttle base commands)

/-- C10: after every sequence of Add and Remove commands handled from a newly
constructed thread, every channel id is the key of at most one entry of the
roots map; and an Add on a channel that has a root then leaves the map as it
was, with the root registered first still the single entry of that channel, and
returns NOTHING. -/
theorem channel_has_one_root {σ β : Type} (ext : Externals σ β)
    (interval throttle : Nat) (base : β) (commands : List CommandPayload) :
    (∀ c : ChannelID,
      (handle_add_remove ext (PollingThread.create interval throttle base) commands).roots.keys.count c
        ≤ 1) ∧
    (∀ (command : CommandPayload) (r0 : PolledRoot σ),
      (handle_add_remove ext (PollingThread.create interval throttle base) commands).roots.find
        command.get_channel_id = some r0 →
      (handle_add_command ext
        (handle_add_remove ext (PollingThread.create interval throttle base) commands)
        command).1.roots =
        (handle_add_remove ext (PollingThread.create interval throttle base) commands).roots ∧
      (handle_add_command ext
        (handle_add_remove ext (PollingThread.create interval throttle base) commands)
        command).1.roots.find command.get_channel_id = some r0 ∧
      (handle_add_command ext
        (handle_add_remove ext (PollingThread.create interval throttle base) commands)
        command).1.roots.keys.count command.get_channel_id = 1 ∧
      (handle_add_command ext
        (handle_add_remove ext (PollingThread.create interval throttle base) commands)
        command).2 = Result.ok CommandOutcome.NOTHING) := by
  have hwf := handle_add_remove_create_WF ext interval throttle base commands
  refine ⟨fun c => RootMap.keys_count_le_one _ hwf c, ?_⟩
  intro command r0 hfind
  have hsame :
      (handle_add_command ext
        (handle_add_remove ext (PollingThread.create interval throttle base) commands)
        command).1.roots =
        (handle_add_remove ext (PollingThread.create interval throttle base) commands).roots :=
    RootMap.emplace_of_find_some _ _ _ r0 hwf hfind
  refine ⟨hsame, ?_, ?_, rfl⟩
  · rw [hsame]; exact hfind
  · rw [hsame]
    have h1 := RootMap.keys_count_le_one _ hwf command.get_channel_id
    have h2 := RootMap.find_some_count_pos _ _ r0 hfind
    omega

theorem channel_has_one_root_witness :
    (handle_add_remove two_roots_externals (PollingThread.create 100 7 (Flags.mk false true))
        [add_command 10 "A" 1]).roots.find (add_command 11 "B" 1).get_channel_id
      = some { root := "A", command_id := 10, channel_id := 1, state := 2 } ∧
    (handle_add_command two_roots_externals
        (handle_add_remove two_roots_externals (PollingThread.create 100 7 (Flags.mk false true))
          [add_command 10 "A" 1])
        (add_command 11 "B" 1)).1.roots.find (add_command 11 "B" 1).get_channel_id
      = some { root := "A", command_id := 10, channel_id := 1, state := 2 } ∧
    (handle_add_command two_roots_externals
        (handle_add_remove two_roots_externals (PollingThread.create 100 7 (Flags.mk false true))
          [add_command 10 "A" 1])
        (add_command 11 "B" 1)).1.roots.keys.count (add_command 11 "B" 1).get_channel_id = 1 :=
  have h := (channel_has_one_root two_roots_externals 100 7 (Flags.mk false true)
    [add_command 10 "A" 1]).2 (add_command 11 "B" 1)
      { root := "A", command_id := 10, channel_id := 1, state := 2 } (by decide)
  ⟨by decide, h.2.1, h.2.2.1⟩

/-! ## The body loop -/

/-- The part of an iteration after the `if` never returns from `body`: it runs
the poll cycle and goes round the loop again. -/
theorem body_poll_again {σ β : Type} (ext : Externals σ β) (pt : PollingThread σ β) :
    ∃ pt1 events, body_poll ext pt = Step.again pt1 events ∧ BodyEvent.cycle ∈ events := by
  obtain ⟨out, _, hc, _⟩ := cycle_returns ext pt
  unfold body_poll
  rw [hc]
  by_cases hh : ext.is_healthy out.thread.base
  · refine ⟨out.thread, [BodyEvent.handle_commands, BodyEvent.cycle,
      BodyEvent.sleep_for out.thread.poll_interval], ?_, by simp⟩
    simp only [hh, if_true]
  · refine ⟨out.thread, [BodyEvent.handle_commands, BodyEvent.cycle], ?_, by simp⟩
    simp only [hh]
    rfl

/-- C7, as the claim states it, fails: when handle_commands returns an error and
the stopping flag is set afterwards, the iteration runs a poll cycle, sleeps and
goes round the loop again, and `body` has not returned at its end. -/
theorem body_stop_counterexample :
    (failing_externals.handle_commands two_roots_thread).2.is_error = true ∧
    failing_externals.is_stopping (failing_externals.handle_commands two_roots_thread).1.base
      = true ∧
    body_iteration failing_externals two_roots_thread =
      Step.again
        { roots := [(1, { root := "A", command_id := 10, channel_id := 1, state := 0 }),
                    (2, { root := "B", command_id := 11, channel_id := 2, state := 5 })]
          poll_interval := 100
          poll_throttle := 7
          base := { stopping := true, healthy := true } }
        [BodyEvent.handle_commands, BodyEvent.cycle, BodyEvent.sleep_for 100] ∧
    body failing_externals 1 two_roots_thread = none :=
  ⟨rfl, rfl, rfl, rfl⟩

/-- C7, amended: in every iteration of the loop of body, if handle_commands
returned success and the stopping flag is set once the commands have been
handled, then body returns an ok result in that same iteration, having neither
run a poll cycle nor slept; if handle_commands returned an error, the flag is
not consulted in that iteration: the poll cycle runs and the loop goes on. -/
theorem body_stops_after_commands {σ β : Type} (ext : Externals σ β) (pt : PollingThread σ β)
    (fuel : Nat) :
    ((ext.handle_commands pt).2.is_error = false →
      ext.is_stopping (ext.handle_commands pt).1.base = true →
      body ext (fuel + 1) pt =
        some ((ext.handle_commands pt).1, Result.ok (), [BodyEvent.handle_commands])) ∧
    ((ext.handle_commands pt).2.is_error = true →
      ∃ pt1 events, body_iteration ext pt = Step.again pt1 events ∧
        BodyEvent.cycle ∈ events) := by
  constructor
  · intro hok hstop
    have hit : body_iteration ext pt =
        Step.returned (ext.handle_commands pt).1 (ok_result ()) [BodyEvent.handle_commands] := by
      simp only [body_iteration, hok, hstop, if_true]
      simp
    rw [body, hit]
    rfl
  · intro herr
    have hit : body_iteration ext pt = body_poll ext (ext.handle_commands pt).1 := by
      simp only [body_iteration, herr, if_true]
    rw [hit]
    exact body_poll_again ext _

theorem body_stops_after_commands_witness :
    ((stopping_externals.handle_commands two_roots_thread).2.is_error = false ∧
      stopping_externals.is_stopping (stopping_externals.handle_commands two_roots_thread).1.base
        = true) ∧
    body stopping_externals 1 two_roots_thread =
      some ((stopping_externals.handle_commands two_roots_thread).1, Result.ok (),
        [BodyEvent.handle_commands]) ∧
    ((failing_externals.handle_commands two_roots_thread).2.is_error = true ∧
      ∃ pt1 events, body_iteration failing_externals two_roots_thread = Step.again pt1 events ∧
        BodyEvent.cycle ∈ events) :=
  ⟨⟨rfl, rfl⟩,
   (body_stops_after_commands stopping_externals two_roots_thread 0).1 rfl rfl,
   rfl, (body_stops_after_commands failing_externals two_roots_thread 0).2 rfl⟩

/-! ## The logger -/

/-- When the slot holds a logger, `Logger::current` returns it and changes nothing. -/
theorem current_of_slot_set (s : LoggerState) (h : s.slot ≠ LoggerPtr.null) :
    Logger.current s = (s, s.slot) := by
  simp [Logger.current, h]

/-- The function `replace_logger` in one equation. -/
theorem replace_logger_eq (s : LoggerState) (new_logger : LoggerPtr) :
    replace_logger s new_logger =
      { slot := new_logger, created := s.created, deleted := s.deleted ++ s.owned } := by
  obtain ⟨slot, created, deleted⟩ := s
  cases slot <;> simp [replace_logger, Logger.current, delete_logger, LoggerState.owned]

theorem apply_eq (s : LoggerState) (call : LoggerCall) :
    call.apply s =
      { slot := call.installs s,
        created := s.created ++ (match call with
          | LoggerCall.to_file filename => [filename]
          | LoggerCall.disable => []),
        deleted := s.deleted ++ s.owned } := by
  cases call with
  | to_file filename =>
    simp [LoggerCall.apply, Logger.to_file, replace_logger_eq, LoggerCall.installs,
      LoggerState.owned]
  | disable =>
    simp [LoggerCall.apply, Logger.disable, replace_logger_eq, LoggerCall.installs]

theorem inv_fresh : LoggerState.fresh.Inv := by
  refine ⟨by simp [LoggerState.fresh], ?_, ?_⟩
  · intro id h; simp [LoggerState.fresh] at h
  · intro id; simp [LoggerState.fresh]

theorem inv_apply (s : LoggerState) (call : LoggerCall) (h : s.Inv) : (call.apply s).Inv := by
  obtain ⟨h1, h2, h3⟩ := h
  rw [apply_eq]
  obtain ⟨slot, created, deleted⟩ := s
  simp only at h1 h2 h3
  refine ⟨?_, ?_, ?_⟩
  · cases slot <;> simp [LoggerState.owned, h1]
  · intro id hid
    cases call with
    | to_file filename =>
      simp only [LoggerCall.installs, LoggerPtr.file.injEq] at hid
      simp [← hid]
    | disable => simp [LoggerCall.installs] at hid
  · intro id
    have h3i := h3 id
    cases slot with
    | null =>
      cases call with
      | to_file filename =>
        simp only [LoggerState.owned, List.append_nil, LoggerCall.installs, List.length_append,
          List.length_singleton, ne_eq, LoggerPtr.file.injEq]
        rw [h3i]
        simp only [ne_eq, not_false_eq_true, and_true, reduceCtorEq]
        by_cases hlt : id < created.length
        · have : ¬ created.length = id := by omega
          have h' : id < created.length + 1 := by omega
          simp [hlt, this, h']
        · by_cases he : created.length = id
          · simp [hlt, he]
          · have h' : ¬ id < created.length + 1 := by omega
            simp [hlt, h']
      | disable =>
        simp only [LoggerState.owned, List.append_nil, LoggerCall.installs]
        rw [h3i]
        simp
    | the_null_logger =>
      cases call with
      | to_file filename =>
        simp only [LoggerState.owned, List.append_nil, LoggerCall.installs, List.length_append,
          List.length_singleton, ne_eq, LoggerPtr.file.injEq]
        rw [h3i]
        simp only [ne_eq, not_false_eq_true, and_true, reduceCtorEq]
        by_cases hlt : id < created.length
        · have : ¬ created.length = id := by omega
          have h' : id < created.length + 1 := by omega
          simp [hlt, this, h']
        · by_cases he : created.length = id
          · simp [hlt, he]
          · have h' : ¬ id < created.length + 1 := by omega
            simp [hlt, h']
      | disable =>
        simp only [LoggerState.owned, List.append_nil, LoggerCall.installs]
        rw [h3i]
    | file cur =>
      have hcur : cur < created.length := h2 cur rfl
      simp only [LoggerState.owned, List.count_append, List.count_singleton, beq_iff_eq,
        LoggerPtr.file.injEq]
      rw [h3i]
      simp only [ne_eq, LoggerPtr.file.injEq]
      cases call with
      | to_file filename =>
        simp only [LoggerCall.installs, List.length_append, List.length_singleton, ne_eq,
          LoggerPtr.file.injEq]
        by_cases hlt : id < created.length
        · have : ¬ created.length = id := by omega
          have h' : id < created.length + 1 := by omega
          by_cases hc : cur = id <;> simp [hlt, this, h', hc]
        · have hc : ¬ cur = id := by omega
          by_cases he : created.length = id
          · simp [hlt, he, hc]
          · have h' : ¬ id < created.length + 1 := by omega
            simp [hlt, h', hc]
      | disable =>
        simp only [LoggerCall.installs, List.append_nil, ne_eq, not_false_eq_true, and_true,
          reduceCtorEq]
        by_cases hlt : id < created.length
        · by_cases hc : cur = id <;> simp [hlt, hc]
        · have hc : ¬ cur = id := by omega
          simp [hlt, hc]

theorem inv_run (calls : List LoggerCall) :
    ∀ s : LoggerState, s.Inv → (run_logger_calls s calls).Inv := by
  induction calls with
  | nil => intro s h; exact h
  | cons call rest ih =>
    intro s h
    exact ih (call.apply s) (inv_apply s call h)

/-- C6, at the failing input: on a thread whose slot is still empty, the first
call of `Logger::current` stores the sentinel in the slot and returns the null
pointer it had read before. -/
theorem current_first_call_returns_null :
    Logger.current LoggerState.fresh =
      ({ slot := LoggerPtr.the_null_logger, created := [], deleted := [] }, LoggerPtr.null) := by
  decide

/-- C8: after every sequence of to_file and disable calls on a thread that had no
logger set, the sentinel has not been deleted, and every file logger created
has been deleted exactly once unless it is the current logger, which has not
been deleted; after one more call the current logger is the one that call
installed (for to_file a file logger not created before), and what the call
deleted is exactly the file logger that was current before it, if there was one. -/
theorem logger_replacement (calls : List LoggerCall) (call : LoggerCall) :
    LoggerPtr.the_null_logger ∉ (run_logger_calls LoggerState.fresh calls).deleted ∧
    (∀ id, id < (run_logger_calls LoggerState.fresh calls).created.length →
      (run_logger_calls LoggerState.fresh calls).deleted.count (LoggerPtr.file id) =
        if (run_logger_calls LoggerState.fresh calls).slot = LoggerPtr.file id then 0 else 1) ∧
    (∀ id, (run_logger_calls LoggerState.fresh calls).created.length ≤ id →
      (run_logger_calls LoggerState.fresh calls).deleted.count (LoggerPtr.file id) = 0) ∧
    run_logger_calls LoggerState.fresh (calls ++ [call]) =
      call.apply (run_logger_calls LoggerState.fresh calls) ∧
    (call.apply (run_logger_calls LoggerState.fresh calls)).slot =
      call.installs (run_logger_calls LoggerState.fresh calls) ∧
    (Logger.current (call.apply (run_logger_calls LoggerState.fresh calls))).2 =
      call.installs (run_logger_calls LoggerState.fresh calls) ∧
    (call.apply (run_logger_calls LoggerState.fresh calls)).deleted =
      (run_logger_calls LoggerState.fresh calls).deleted ++
        (run_logger_calls LoggerState.fresh calls).owned ∧
    (∀ id, (run_logger_calls LoggerState.fresh calls).slot = LoggerPtr.file id →
      (run_logger_calls LoggerState.fresh calls).deleted.count (LoggerPtr.file id) = 0 ∧
      (call.apply (run_logger_calls LoggerState.fresh calls)).deleted.count (LoggerPtr.file id)
        = 1) := by
  have happ : run_logger_calls LoggerState.fresh (calls ++ [call]) =
      call.apply (run_logger_calls LoggerState.fresh calls) := by
    simp [run_logger_calls, List.foldl_append]
  refine ⟨?_, ?_, ?_, happ, ?_⟩
  · exact (inv_run calls LoggerState.fresh inv_fresh).1
  · intro id hlt
    rw [(inv_run calls LoggerState.fresh inv_fresh).2.2 id]
    by_cases hs : (run_logger_calls LoggerState.fresh calls).slot = LoggerPtr.file id
    · simp [hs]
    · simp [hs, hlt]
  · intro id hle
    rw [(inv_run calls LoggerState.fresh inv_fresh).2.2 id]
    have : ¬ id < (run_logger_calls LoggerState.fresh calls).created.length := by omega
    simp [this]
  · have hinv := inv_run calls LoggerState.fresh inv_fresh
    generalize run_logger_calls LoggerState.fresh calls = s at hinv ⊢
    have hslot : (call.apply s).slot = call.installs s := by rw [apply_eq]
    have hdel : (call.apply s).deleted = s.deleted ++ s.owned := by rw [apply_eq]
    refine ⟨hslot, ?_, hdel, ?_⟩
    · have hne : (call.apply s).slot ≠ LoggerPtr.null := by
        rw [hslot]
        cases call <;> simp [LoggerCall.installs]
      rw [current_of_slot_set _ hne]
      exact hslot
    · intro id hs
      have h0 : s.deleted.count (LoggerPtr.file id) = 0 := by
        rw [hinv.2.2 id]
        simp [hs]
      refine ⟨h0, ?_⟩
      rw [hdel, List.count_append, h0]
      simp [LoggerState.owned, hs]

theorem logger_replacement_witness :
    ((0 < (run_logger_calls LoggerState.fresh
          [LoggerCall.to_file "a.log", LoggerCall.to_file "b.log"]).created.length) ∧
      (run_logger_calls LoggerState.fresh
          [LoggerCall.to_file "a.log", LoggerCall.to_file "b.log"]).deleted.count (LoggerPtr.file 0) =
        if (run_logger_calls LoggerState.fresh
          [LoggerCall.to_file "a.log", LoggerCall.to_file "b.log"]).slot = LoggerPtr.file 0
        then 0 else 1) ∧
    ((run_logger_calls LoggerState.fresh
          [LoggerCall.to_file "a.log", LoggerCall.to_file "b.log"]).created.length ≤ 2 ∧
      (run_logger_calls LoggerState.fresh
          [LoggerCall.to_file "a.log", LoggerCall.to_file "b.log"]).deleted.count (LoggerPtr.file 2)
        = 0) ∧
    ((run_logger_calls LoggerState.fresh
          [LoggerCall.to_file "a.log", LoggerCall.to_file "b.log"]).slot = LoggerPtr.file 1 ∧
      (run_logger_calls LoggerState.fresh
          [LoggerCall.to_file "a.log", LoggerCall.to_file "b.log"]).deleted.count (LoggerPtr.file 1)
        = 0 ∧
      (LoggerCall.disable.apply (run_logger_calls LoggerState.fresh
          [LoggerCall.to_file "a.log", LoggerCall.to_file "b.log"])).deleted.count (LoggerPtr.file 1)
        = 1) ∧
    run_logger_calls LoggerState.fresh
        [LoggerCall.to_file "a.log", LoggerCall.to_file "b.log", LoggerCall.disable] =
      { slot := LoggerPtr.the_null_logger, created := ["a.log", "b.log"],
        deleted := [LoggerPtr.file 0, LoggerPtr.file 1] } :=
  have h := logger_replacement [LoggerCall.to_file "a.log", LoggerCall.to_file "b.log"]
    LoggerCall.disable
  ⟨⟨by decide, h.2.1 0 (by decide)⟩, ⟨by decide, h.2.2.1 2 (by decide)⟩,
   ⟨by decide, h.2.2.2.2.2.2.2 1 (by decide)⟩, by decide⟩

end Watcher
